import Mathlib

/-!
Verification of the voice-memo transcription web app's core logic:
the Record Locator (`get_next_unprocessed_record`), the Chunk Splitter
(`split_audio`) and the Transcription Engine (`transcribe_audio`) from
`main.py`, shallowly embedded as executable Lean definitions.
-/

deriving instance DecidableEq for Except

/-- Python's `str.strip()` with no argument: remove leading and trailing
whitespace (modelled over the ASCII whitespace characters). -/
def pyStrip (s : String) : String :=
  ⟨((s.data.dropWhile Char.isWhitespace).reverse.dropWhile Char.isWhitespace).reverse⟩

/-- Removal of trailing whitespace only (the operation the spec's words
"with trailing whitespace stripped" describe). -/
def pyStripRight (s : String) : String :=
  ⟨(s.data.reverse.dropWhile Char.isWhitespace).reverse⟩

/-- A returned record: the payload dictionary built by
`get_next_unprocessed_record` when it finds an unprocessed row. -/
structure Record where
  row : Int
  url : String
  company : String
  connected_on : String
  first_name : String
  last_name : String
  recording : String
deriving Repr, DecidableEq

/-- Python list indexing `values[j]` for a possibly negative index `j`:
a negative index counts from the end; an out-of-range index is an
IndexError, modelled as `none`. -/
def pyIndex (values : List (List String)) (j : Int) : Option (List String) :=
  if 0 ≤ j then values.get? j.toNat
  else if 0 ≤ j + values.length then values.get? (j + values.length).toNat
  else none

/-- The row test from `main.py` line 80:
`len(row_values) < 6 or not row_values[5].strip()`. -/
def isUnprocessed (rv : List String) : Bool :=
  decide (rv.length < 6) || decide (pyStrip (rv.getD 5 "") = "")

/-- The payload dictionary built at `main.py` lines 81-89: each field is
`row_values[j] if len(row_values) > j else ""`, i.e. `rv.getD j ""`. -/
def mkRecord (i : Int) (rv : List String) : Record :=
  { row := i
    url := rv.getD 0 ""
    company := rv.getD 1 ""
    connected_on := rv.getD 2 ""
    first_name := rv.getD 3 ""
    last_name := rv.getD 4 ""
    recording := rv.getD 5 "" }

/-- The loop body of `get_next_unprocessed_record`: scan `n` successive
row numbers starting at `i`, fetching `values[i - 1]` (Python indexing,
so an IndexError is possible for negative `i - 1` far out of range),
returning the first unprocessed row's payload. -/
def scanFrom (values : List (List String)) : Int → Nat → Except Unit (Option Record)
  | _, 0 => Except.ok none
  | i, n + 1 =>
    match pyIndex values (i - 1) with
    | none => Except.error ()
    | some rv =>
      if isUnprocessed rv then Except.ok (some (mkRecord i rv))
      else scanFrom values (i + 1) n

/-- `get_next_unprocessed_record` from `main.py` lines 70-90, with the
fetched table passed explicitly: iterates
`for i in range(current_row + 1, len(values) + 1)` and returns the first
unprocessed row's payload, the `{}` sentinel (`none`) when the loop runs
out, or an error when Python indexing raises. -/
def get_next_unprocessed_record (current_row : Int) (values : List (List String)) :
    Except Unit (Option Record) :=
  scanFrom values (current_row + 1) (((values.length : Int) + 1) - (current_row + 1)).toNat

/-- The list of integers `[a, a+1, ..., a+n-1]`. -/
def intRangeList (a : Int) (n : Nat) : List Int :=
  (List.range n).map (fun j : Nat => a + (j : Int))

/-- The row of the table at 1-based row number `i` (spec view: rows are
numbered 1..N, row `i` of the table is `values[i-1]`). -/
def rowAt (values : List (List String)) (i : Int) : List String :=
  values.getD (i - 1).toNat []

/-- Modelled from the spec's words for the Record Locator contract: among
the table's row numbers 1..N, the smallest row number `i > k` whose row
has fewer than 6 columns or an (after stripping) empty column F, returning
that row's payload with missing trailing columns as empty strings, and
the no-record sentinel when no such row exists. -/
def locatorSpec (k : Int) (values : List (List String)) : Option Record :=
  let candidates := (intRangeList 1 values.length).filter (fun i => decide (k < i))
  (candidates.find? (fun i => isUnprocessed (rowAt values i))).map
    (fun i => mkRecord i (rowAt values i))

lemma intRangeList_succ (a : Int) (n : Nat) :
    intRangeList a (n + 1) = a :: intRangeList (a + 1) n := by
  unfold intRangeList
  rw [List.range_succ_eq_map, List.map_cons, List.map_map]
  refine congrArg₂ List.cons (by simp) ?_
  apply List.map_congr_left
  intro j _
  simp only [Function.comp_apply, Nat.cast_succ]
  ring

lemma filter_gt_of_lt (k : Int) :
    ∀ (n : Nat) (a : Int), k < a →
      (intRangeList a n).filter (fun i => decide (k < i)) = intRangeList a n := by
  intro n
  induction n with
  | zero => intro a _; rfl
  | succ m ih =>
    intro a hk
    rw [intRangeList_succ, List.filter_cons, if_pos (by simpa using hk),
      ih (a + 1) (by omega)]

lemma filter_gt_of_le (k : Int) :
    ∀ (n : Nat) (a : Int), a ≤ k →
      (intRangeList a n).filter (fun i => decide (k < i)) =
        intRangeList (k + 1) (n - (k + 1 - a).toNat) := by
  intro n
  induction n with
  | zero => intro a _; simp [intRangeList]
  | succ m ih =>
    intro a ha
    have h1 : ¬(k < a) := by omega
    rw [intRangeList_succ, List.filter_cons, if_neg (by simpa using h1)]
    rcases lt_or_eq_of_le ha with hlt | heq
    · rw [ih (a + 1) (by omega)]
      congr 1
      omega
    · subst heq
      rw [filter_gt_of_lt a m (a + 1) (by omega)]
      congr 1
      omega

lemma scanFrom_eq_find (values : List (List String)) :
    ∀ (n : Nat) (a : Int), 1 ≤ a → a + (n : Int) = (values.length : Int) + 1 →
      scanFrom values a n =
        Except.ok (((intRangeList a n).find? (fun i => isUnprocessed (rowAt values i))).map
          (fun i => mkRecord i (rowAt values i))) := by
  intro n
  induction n with
  | zero => intro a _ _; rfl
  | succ m ih =>
    intro a h1 h2
    have hlt : (a - 1).toNat < values.length := by omega
    have hpy : pyIndex values (a - 1) = some (rowAt values a) := by
      unfold pyIndex rowAt
      rw [if_pos (by omega), List.getD_eq_get?, List.get?_eq_get hlt]
      rfl
    rw [intRangeList_succ, List.find?_cons]
    simp only [scanFrom, hpy]
    by_cases hu : isUnprocessed (rowAt values a)
    · simp [hu]
    · simp only [hu, if_false, Bool.false_eq_true, ite_false]
      rw [ih (a + 1) (by omega) (by omega)]

/-- C1 counterexample: at starting row number `-1` on a one-row table, the
code follows Python negative indexing (`values[-1]`) and returns a payload
with row number 0, not the smallest table row number `> -1` (which is row 1)
that the claim describes. -/
theorem locator_negative_start_cex :
    get_next_unprocessed_record (-1) [["h"]] ≠ Except.ok (locatorSpec (-1) [["h"]]) := by
  decide

/-- C1 (amended: for every starting row number `k ≥ 0`): the Record Locator
returns exactly the spec-described result — the smallest row number `i > k`
whose row has fewer than 6 columns or a blank column F, with that row's
payload (missing trailing columns as empty strings), and the empty sentinel
(no error) when no such row exists, including when `k` is at or past the
last row. -/
theorem locator_matches_spec (k : Int) (values : List (List String)) (hk : 0 ≤ k) :
    get_next_unprocessed_record k values = Except.ok (locatorSpec k values) := by
  unfold get_next_unprocessed_record locatorSpec
  have hcand : (intRangeList 1 values.length).filter (fun i => decide (k < i)) =
      intRangeList (k + 1) (((values.length : Int) + 1) - (k + 1)).toNat := by
    rcases eq_or_lt_of_le hk with heq | hpos
    · rw [filter_gt_of_lt k values.length 1 (by omega)]
      rw [← heq]
      congr 1
      omega
    · rw [filter_gt_of_le k values.length 1 (by omega)]
      congr 1
      omega
  rw [hcand]
  by_cases hle : k ≤ (values.length : Int)
  · exact scanFrom_eq_find values _ (k + 1) (by omega) (by omega)
  · have h0 : (((values.length : Int) + 1) - (k + 1)).toNat = 0 := by omega
    rw [h0]
    rfl

/-- C1 witness: the amended theorem applied at `k = 0` on a concrete
two-row table. -/
theorem locator_matches_spec_witness :
    (0 : Int) ≤ 0 ∧
      get_next_unprocessed_record 0 [["a", "b", "c", "d", "e", "f"], ["u"]] =
        Except.ok (locatorSpec 0 [["a", "b", "c", "d", "e", "f"], ["u"]]) :=
  ⟨by decide, locator_matches_spec 0 [["a", "b", "c", "d", "e", "f"], ["u"]] (by decide)⟩

lemma scanFrom_row_ge (values : List (List String)) :
    ∀ (n : Nat) (a : Int) (r : Record),
      scanFrom values a n = Except.ok (some r) → a ≤ r.row := by
  intro n
  induction n with
  | zero => intro a r h; simp [scanFrom] at h
  | succ m ih =>
    intro a r h
    simp only [scanFrom] at h
    cases hpy : pyIndex values (a - 1) with
    | none => rw [hpy] at h; simp at h
    | some rv =>
      rw [hpy] at h
      by_cases hu : isUnprocessed rv
      · simp only [hu, if_true, ite_true, Except.ok.injEq, Option.some.injEq] at h
        subst h
        simp [mkRecord]
      · simp only [hu, if_false, Bool.false_eq_true, ite_false] at h
        have := ih (a + 1) r h
        omega

/-- C2 counterexample: with starting row number 0, the scan begins at row 1
(the header); on a table whose header row has fewer than 6 columns the code
returns the header itself, a record with row number `1 < 2`. -/
theorem header_start_zero_cex :
    get_next_unprocessed_record 0 [["h"]] = Except.ok (some (mkRecord 1 ["h"])) ∧
      (mkRecord 1 ["h"]).row < 2 := by
  decide

/-- C2 (amended: for every starting row number `k ≥ 1`): the Record Locator
never returns the header row — any returned record has row number at least
`2`. (For `k = 0` the scan starts at row 1, and for negative `k` Python
negative indexing is reached, so the original claim fails there.) -/
theorem locator_row_ge_two (values : List (List String)) (k : Int) (r : Record)
    (hk : 1 ≤ k) (h : get_next_unprocessed_record k values = Except.ok (some r)) :
    2 ≤ r.row := by
  have := scanFrom_row_ge values _ (k + 1) r h
  omega

/-- C2 witness: the amended theorem applied at `k = 1` on a concrete table
whose row 2 is unprocessed. -/
theorem locator_row_ge_two_witness :
    (1 : Int) ≤ 1 ∧ 2 ≤ (mkRecord 2 ([] : List String)).row :=
  ⟨by decide,
    locator_row_ge_two [["h1", "h2", "h3", "h4", "h5", "h6"], []] 1
      (mkRecord 2 []) (by decide) (by decide)⟩

/-- C9: the Record Locator is deterministic — two calls with the same
starting row number against the same unchanged table yield the same
result (the pure scan caches nothing across calls). -/
theorem locator_deterministic (values : List (List String)) (k : Int)
    (r₁ r₂ : Except Unit (Option Record))
    (h₁ : get_next_unprocessed_record k values = r₁)
    (h₂ : get_next_unprocessed_record k values = r₂) : r₁ = r₂ := by
  rw [← h₁, ← h₂]

/-- C9 witness: the determinism theorem applied to two concrete calls on
the empty table. -/
theorem locator_deterministic_witness :
    (Except.ok none : Except Unit (Option Record)) = Except.ok none :=
  locator_deterministic [] 0 (Except.ok none) (Except.ok none) rfl rfl

lemma isUnprocessed_blank (rv : List String) (h : isUnprocessed rv = true) :
    pyStrip (rv.getD 5 "") = "" := by
  unfold isUnprocessed at h
  simp only [Bool.or_eq_true, decide_eq_true_eq] at h
  rcases h with h | h
  · rw [List.getD_eq_default _ _ (by omega)]
    rfl
  · exact h

lemma scanFrom_recording_blank (values : List (List String)) :
    ∀ (n : Nat) (a : Int) (r : Record),
      scanFrom values a n = Except.ok (some r) → pyStrip r.recording = "" := by
  intro n
  induction n with
  | zero => intro a r h; simp [scanFrom] at h
  | succ m ih =>
    intro a r h
    simp only [scanFrom] at h
    cases hpy : pyIndex values (a - 1) with
    | none => rw [hpy] at h; simp at h
    | some rv =>
      rw [hpy] at h
      by_cases hu : isUnprocessed rv
      · simp only [hu, if_true, ite_true, Except.ok.injEq, Option.some.injEq] at h
        subst h
        exact isUnprocessed_blank rv hu
      · simp only [hu, if_false, Bool.false_eq_true, ite_false] at h
        exact ih (a + 1) r h

/-- C10: whenever the Record Locator returns a non-empty record, that
record's `recording` field strips to the empty string — the payload never
carries previously written transcription text. -/
theorem locator_recording_blank (values : List (List String)) (k : Int) (r : Record)
    (h : get_next_unprocessed_record k values = Except.ok (some r)) :
    pyStrip r.recording = "" := by
  exact scanFrom_recording_blank values _ (k + 1) r h

/-- C10 witness: the theorem applied to a concrete table whose row 2 has a
whitespace-only column F. -/
theorem locator_recording_blank_witness :
    pyStrip (mkRecord 2 ["a", "b", "c", "d", "e", "  "]).recording = "" :=
  locator_recording_blank [["x", "x", "x", "x", "x", "x"], ["a", "b", "c", "d", "e", "  "]]
    1 (mkRecord 2 ["a", "b", "c", "d", "e", "  "]) (by decide)

/-- The audio parameters `split_audio` reads off the decoded recording:
`audio.frame_rate`, `audio.frame_width` (bytes per sample-frame) and
`len(audio)` (total duration in milliseconds). -/
structure Audio where
  frame_rate : Nat
  frame_width : Nat
  total_length_ms : Nat
deriving Repr, DecidableEq

/-- An audio file on disk: its path, its encoded byte size
(`os.path.getsize`) and its decoded audio parameters. -/
structure AudioFile where
  path : String
  size_bytes : Nat
  audio : Audio
deriving Repr, DecidableEq

/-- A chunk produced by `split_audio`: its start offset and length in
milliseconds within the source recording, and the exported file's path. -/
structure Chunk where
  start : Nat
  len : Nat
  path : String
deriving Repr, DecidableEq

/-- `main.py` line 102: `chunk_size_ms = int((max_size_mb * 1024 * 1024) /
(audio.frame_rate * audio.frame_width)) * 1000` (integer seconds from a
floored division, expressed in milliseconds). -/
def chunk_size_ms (max_size_mb : Nat) (a : Audio) : Nat :=
  ((max_size_mb * 1024 * 1024) / (a.frame_rate * a.frame_width)) * 1000

/-- The number of loop iterations of `for i in range(0, total_length_ms,
chunk_size_ms)` for a positive step: `ceil(total_length_ms / step)`. -/
def numChunks (total_length_ms step : Nat) : Nat :=
  (total_length_ms + step - 1) / step

/-- `split_audio` from `main.py` lines 95-111: slices the recording at
`i = 0, step, 2*step, ...` (each slice `audio[i:i+step]` is clipped at the
end of the recording) and exports chunk `i // step` to
`f"{file_path}_chunk{i // step}.mp3"`. A zero step makes
`range(0, total_length_ms, 0)` raise `ValueError` (and a zero
`frame_rate * frame_width` raises `ZeroDivisionError` even earlier), both
modelled as `Except.error ()`; there is no guard in the code. -/
def split_audio (file_path : String) (a : Audio) (max_size_mb : Nat) :
    Except Unit (List Chunk) :=
  let step := chunk_size_ms max_size_mb a
  if step = 0 then Except.error ()
  else
    Except.ok ((List.range (numChunks a.total_length_ms step)).map (fun j =>
      { start := j * step
        len := min step (a.total_length_ms - j * step)
        path := file_path ++ "_chunk" ++ toString j ++ ".mp3" }))

/-- A payload sent to the speech-to-text service: either the whole source
file or one exported chunk (identified by its slice bounds). -/
inductive Payload where
  | whole
  | chunk (start : Nat) (len : Nat)
deriving Repr, DecidableEq

/-- An observable file-system / service effect of the transcription
pipeline, in the order it happens. -/
inductive Event where
  | create (path : String)
  | svcCall (p : Payload)
  | remove (path : String)
deriving Repr, DecidableEq

/-- The per-chunk loop of `transcribe_audio` (lines 123-131): for each
chunk in order, call the service; on success append `text + "\n"` to the
accumulator and delete the chunk file; on a service error the exception
propagates and the remaining chunks (including the failing one) are
neither transcribed nor deleted. Returns the trace of effects and either
the final accumulator or the propagated error. -/
def transcribeChunks (svc : Payload → Except Unit String) :
    String → List Chunk → List Event × Except Unit String
  | acc, [] => ([], Except.ok acc)
  | acc, c :: rest =>
    match svc (Payload.chunk c.start c.len) with
    | Except.error e => ([Event.svcCall (Payload.chunk c.start c.len)], Except.error e)
    | Except.ok t =>
      let r := transcribeChunks svc (acc ++ t ++ "\n") rest
      (Event.svcCall (Payload.chunk c.start c.len) :: Event.remove c.path :: r.1, r.2)

/-- `transcribe_audio` from `main.py` lines 113-140: if the encoded size
exceeds 25 MiB (`os.path.getsize(file_path) / (1024*1024) > 25`, i.e.
`size_bytes > 25 * 1024 * 1024`), split into chunks (each export creates
a chunk file), transcribe them in order and return the accumulator after
Python's `.strip()`; otherwise make a single service call on the whole
file and return its text verbatim. Returns the effect trace alongside the
result. -/
def transcribe_audio (svc : Payload → Except Unit String) (f : AudioFile) :
    List Event × Except Unit String :=
  if f.size_bytes > 25 * 1024 * 1024 then
    match split_audio f.path f.audio 25 with
    | Except.error e => ([], Except.error e)
    | Except.ok cs =>
      let r := transcribeChunks svc "" cs
      (cs.map (fun c => Event.create c.path) ++ r.1, r.2.map pyStrip)
  else
    ([Event.svcCall Payload.whole], svc Payload.whole)

/-- Concatenation of a list of strings (the accumulator
`transcription_text += transcription + "\n"` builds, viewed whole). -/
def joinAll : List String → String
  | [] => ""
  | s :: rest => s ++ joinAll rest

example : split_audio "f" { frame_rate := 8000, frame_width := 2, total_length_ms := 3000000 } 25
    = Except.ok
      [{ start := 0, len := 1638000, path := "f_chunk0.mp3" },
       { start := 1638000, len := 1362000, path := "f_chunk1.mp3" }] := by decide

example : split_audio "v.webm" { frame_rate := 30000000, frame_width := 1, total_length_ms := 1000 } 25
    = Except.error () := by decide

/-- C3 (evidence of the missing guard): a non-empty recording whose
`frame_rate * frame_width` exceeds the 25 MiB ceiling gives
`chunk_size_ms = 0`, and `split_audio` then raises (Python
`range(0, 1000, 0)` is a `ValueError`) instead of guarding the step and
producing at least one chunk. -/
theorem split_audio_zero_step_errors :
    chunk_size_ms 25 { frame_rate := 30000000, frame_width := 1, total_length_ms := 1000 } = 0 ∧
      split_audio "v.webm"
        { frame_rate := 30000000, frame_width := 1, total_length_ms := 1000 } 25
        = Except.error () := by
  decide

lemma numChunks_bounds (L step : Nat) (hL : 0 < L) (hs : 0 < step) :
    0 < numChunks L step ∧ (numChunks L step - 1) * step < L ∧ L ≤ numChunks L step * step := by
  have hmod := Nat.div_add_mod (L + step - 1) step
  have hr : (L + step - 1) % step < step := Nat.mod_lt _ hs
  unfold numChunks
  rcases Nat.eq_zero_or_pos ((L + step - 1) / step) with h0 | h1
  · rw [h0, Nat.mul_zero] at hmod
    omega
  · obtain ⟨m, hm⟩ : ∃ m, (L + step - 1) / step = m + 1 :=
      ⟨(L + step - 1) / step - 1, by omega⟩
    rw [hm] at hmod ⊢
    have hms : step * (m + 1) = m * step + step := by
      rw [Nat.mul_succ, Nat.mul_comm]
    rw [hms] at hmod
    refine ⟨Nat.succ_pos m, ?_, ?_⟩
    · simp only [Nat.add_sub_cancel]
      omega
    · rw [Nat.succ_mul]
      omega

lemma sum_min_interval (step L : Nat) :
    ∀ m, m * step < L →
      ((List.range m).map (fun j => min step (L - j * step))).sum = m * step := by
  intro m
  induction m with
  | zero => intro _; simp
  | succ p ih =>
    intro hm
    have hsucc : (p + 1) * step = p * step + step := Nat.succ_mul p step
    rw [List.range_succ, List.map_append, List.sum_append, ih (by omega)]
    have hmin : min step (L - p * step) = step := min_eq_left (by omega)
    simp only [List.map_cons, List.map_nil, List.sum_cons, List.sum_nil, Nat.add_zero, hmin]
    omega

lemma getD_map_range {α : Type} (n j : Nat) (f : Nat → α) (d : α) (h : j < n) :
    ((List.range n).map f).getD j d = f j := by
  rw [List.getD_eq_get?, List.get?_map, List.get?_range h]
  rfl

/-- C6 counterexample: a recording with positive duration, sample rate and
frame width for which the computed chunk duration floors to zero — the
claim promises a partition into chunks, but `split_audio` raises instead. -/
theorem split_audio_partition_cex :
    (0 : Nat) < 1000 ∧ (0 : Nat) < 26214401 ∧ (0 : Nat) < 1 ∧
      split_audio "w" { frame_rate := 26214401, frame_width := 1, total_length_ms := 1000 } 25
        = Except.error () := by
  decide

/-- C6 (amended: additionally assuming the computed per-chunk duration
`floor(25 MiB / (frame_rate * frame_width))` seconds is positive — when it
is zero the call raises instead): `split_audio` slices the recording into
consecutive chunks of exactly `chunk_size_ms` milliseconds each, starting
at 0 with no gaps or overlaps, the final chunk possibly shorter, and the
chunk lengths sum to the total duration. -/
theorem split_audio_partition (fp : String) (a : Audio)
    (hL : 0 < a.total_length_ms) (hfr : 0 < a.frame_rate) (hfw : 0 < a.frame_width)
    (hstep : 0 < chunk_size_ms 25 a) :
    ∃ cs, split_audio fp a 25 = Except.ok cs ∧
      cs ≠ [] ∧
      (cs.getD 0 ⟨0, 0, ""⟩).start = 0 ∧
      (∀ j, j + 1 < cs.length →
        (cs.getD j ⟨0, 0, ""⟩).len = chunk_size_ms 25 a ∧
        (cs.getD j ⟨0, 0, ""⟩).start + (cs.getD j ⟨0, 0, ""⟩).len
          = (cs.getD (j + 1) ⟨0, 0, ""⟩).start) ∧
      (∀ c ∈ cs, 0 < c.len ∧ c.len ≤ chunk_size_ms 25 a) ∧
      (cs.map Chunk.len).sum = a.total_length_ms := by
  obtain ⟨hpos, hlb, hub⟩ :=
    numChunks_bounds a.total_length_ms (chunk_size_ms 25 a) hL hstep
  refine ⟨(List.range (numChunks a.total_length_ms (chunk_size_ms 25 a))).map (fun j =>
      ({ start := j * chunk_size_ms 25 a,
         len := min (chunk_size_ms 25 a) (a.total_length_ms - j * chunk_size_ms 25 a),
         path := fp ++ "_chunk" ++ toString j ++ ".mp3" } : Chunk)),
    ?_, ?_, ?_, ?_, ?_, ?_⟩
  · unfold split_audio
    rw [if_neg (by omega)]
  · have hlen : ((List.range (numChunks a.total_length_ms (chunk_size_ms 25 a))).map (fun j =>
        ({ start := j * chunk_size_ms 25 a,
           len := min (chunk_size_ms 25 a) (a.total_length_ms - j * chunk_size_ms 25 a),
           path := fp ++ "_chunk" ++ toString j ++ ".mp3" } : Chunk))).length
        = numChunks a.total_length_ms (chunk_size_ms 25 a) := by
      rw [List.length_map, List.length_range]
    intro hnil
    rw [hnil] at hlen
    simp only [List.length_nil] at hlen
    omega
  · rw [getD_map_range _ 0 _ _ (by omega)]
    simp
  · intro j hj
    rw [List.length_map, List.length_range] at hj
    rw [getD_map_range _ j _ _ (by omega), getD_map_range _ (j + 1) _ _ (by omega)]
    have hj1 : (j + 1) * chunk_size_ms 25 a
        ≤ (numChunks a.total_length_ms (chunk_size_ms 25 a) - 1) * chunk_size_ms 25 a :=
      Nat.mul_le_mul_right _ (by omega)
    have hsucc : (j + 1) * chunk_size_ms 25 a = j * chunk_size_ms 25 a + chunk_size_ms 25 a :=
      Nat.succ_mul j _
    have hmin : min (chunk_size_ms 25 a) (a.total_length_ms - j * chunk_size_ms 25 a)
        = chunk_size_ms 25 a := min_eq_left (by omega)
    exact ⟨hmin, by simp only [hmin]; omega⟩
  · intro c hc
    obtain ⟨j, hj, rfl⟩ := List.mem_map.mp hc
    rw [List.mem_range] at hj
    have hjlt : j * chunk_size_ms 25 a < a.total_length_ms := by
      have h1 : j * chunk_size_ms 25 a
          ≤ (numChunks a.total_length_ms (chunk_size_ms 25 a) - 1) * chunk_size_ms 25 a :=
        Nat.mul_le_mul_right _ (by omega)
      omega
    constructor
    · show 0 < min (chunk_size_ms 25 a) (a.total_length_ms - j * chunk_size_ms 25 a)
      rw [lt_min_iff]
      exact ⟨hstep, by omega⟩
    · exact min_le_left _ _
  · rw [List.map_map]
    have hcomp : (Chunk.len ∘ fun j =>
        ({ start := j * chunk_size_ms 25 a,
           len := min (chunk_size_ms 25 a) (a.total_length_ms - j * chunk_size_ms 25 a),
           path := fp ++ "_chunk" ++ toString j ++ ".mp3" } : Chunk))
        = fun j => min (chunk_size_ms 25 a) (a.total_length_ms - j * chunk_size_ms 25 a) := by
      funext j
      rfl
    rw [hcomp]
    obtain ⟨m, hm⟩ : ∃ m, numChunks a.total_length_ms (chunk_size_ms 25 a) = m + 1 :=
      ⟨numChunks a.total_length_ms (chunk_size_ms 25 a) - 1, by omega⟩
    rw [hm] at hlb hub ⊢
    simp only [Nat.add_sub_cancel] at hlb
    rw [List.range_succ, List.map_append, List.sum_append,
      sum_min_interval (chunk_size_ms 25 a) a.total_length_ms m hlb]
    have hsucc : (m + 1) * chunk_size_ms 25 a = m * chunk_size_ms 25 a + chunk_size_ms 25 a :=
      Nat.succ_mul m _
    have hmin : min (chunk_size_ms 25 a) (a.total_length_ms - m * chunk_size_ms 25 a)
        = a.total_length_ms - m * chunk_size_ms 25 a := min_eq_right (by omega)
    simp only [List.map_cons, List.map_nil, List.sum_cons, List.sum_nil, Nat.add_zero, hmin]
    omega

/-- C6 witness: the amended theorem applied to the spec's concrete scenario
(44.1 kHz, 4 bytes per frame, 356.5 s): the chunk duration is 148 s and the
recording splits into three gapless chunks. -/
theorem split_audio_partition_witness :
    (0 : Nat) < 356500 ∧ (0 : Nat) < 44100 ∧ (0 : Nat) < 4 ∧
      0 < chunk_size_ms 25 { frame_rate := 44100, frame_width := 4, total_length_ms := 356500 } ∧
      (∃ cs, split_audio "m.webm"
          { frame_rate := 44100, frame_width := 4, total_length_ms := 356500 } 25
          = Except.ok cs ∧
        cs ≠ [] ∧
        (cs.getD 0 ⟨0, 0, ""⟩).start = 0 ∧
        (∀ j, j + 1 < cs.length →
          (cs.getD j ⟨0, 0, ""⟩).len
            = chunk_size_ms 25 { frame_rate := 44100, frame_width := 4, total_length_ms := 356500 } ∧
          (cs.getD j ⟨0, 0, ""⟩).start + (cs.getD j ⟨0, 0, ""⟩).len
            = (cs.getD (j + 1) ⟨0, 0, ""⟩).start) ∧
        (∀ c ∈ cs, 0 < c.len ∧ c.len
          ≤ chunk_size_ms 25 { frame_rate := 44100, frame_width := 4, total_length_ms := 356500 }) ∧
        (cs.map Chunk.len).sum = 356500) :=
  ⟨by decide, by decide, by decide, by decide,
    split_audio_partition "m.webm"
      { frame_rate := 44100, frame_width := 4, total_length_ms := 356500 }
      (by decide) (by decide) (by decide) (by decide)⟩

/-- C5: for a file at or under the 25 MiB ceiling, `transcribe_audio`
makes exactly one service call (on the whole file), never invokes the
Chunk Splitter (the effect trace is the single call, no chunk file is
created), and returns the service's result verbatim. -/
theorem transcribe_under_ceiling_single_call (svc : Payload → Except Unit String)
    (f : AudioFile) (h : f.size_bytes ≤ 25 * 1024 * 1024) :
    transcribe_audio svc f = ([Event.svcCall Payload.whole], svc Payload.whole) := by
  unfold transcribe_audio
  rw [if_neg (by omega)]

/-- C5 witness: the theorem applied to a file of exactly 25 MiB (the
boundary case takes the single-call branch). -/
theorem transcribe_under_ceiling_single_call_witness :
    (26214400 : Nat) ≤ 25 * 1024 * 1024 ∧
      transcribe_audio (fun _ => Except.ok "hello")
        { path := "a.webm", size_bytes := 26214400,
          audio := { frame_rate := 44100, frame_width := 4, total_length_ms := 1000 } }
        = ([Event.svcCall Payload.whole], Except.ok "hello") :=
  ⟨by decide,
    transcribe_under_ceiling_single_call (fun _ => Except.ok "hello")
      { path := "a.webm", size_bytes := 26214400,
        audio := { frame_rate := 44100, frame_width := 4, total_length_ms := 1000 } }
      (by decide)⟩

/-- A service whose first chunk's text starts with whitespace, to witness
that Python's `.strip()` removes it from the final result. -/
def svcCE : Payload → Except Unit String
  | Payload.chunk 0 _ => Except.ok " a"
  | Payload.chunk _ _ => Except.ok "b"
  | Payload.whole => Except.ok "w"

/-- An over-ceiling file that splits into two chunks (8 kHz, 2 bytes per
frame gives a 1638 s chunk duration; total 3000 s). -/
def fCE : AudioFile :=
  { path := "f.webm", size_bytes := 26214401,
    audio := { frame_rate := 8000, frame_width := 2, total_length_ms := 3000000 } }

/-- C4 counterexample: (i) the accumulator is `" a\nb\n"` and the code
returns it after Python `.strip()`, which removes the *leading* space as
well, so the result differs from the claim's trailing-only strip; and
(ii) on an over-ceiling file whose computed chunk duration floors to zero,
the splitter's error propagates and no concatenation is returned at all. -/
theorem transcribe_trailing_strip_cex :
    (transcribe_audio svcCE fCE).2
        = Except.ok (pyStrip (joinAll [" a" ++ "\n", "b" ++ "\n"])) ∧
      (transcribe_audio svcCE fCE).2
        ≠ Except.ok (pyStripRight (joinAll [" a" ++ "\n", "b" ++ "\n"])) ∧
      fCE.size_bytes > 25 * 1024 * 1024 ∧
      (transcribe_audio svcCE
          { path := "g.webm", size_bytes := 26214401,
            audio := { frame_rate := 30000000, frame_width := 1, total_length_ms := 1000 } }).2
        = Except.error () := by
  decide

lemma str_append_empty (s : String) : s ++ "" = s := by
  cases s
  simp [String.append]

lemma str_empty_append (s : String) : "" ++ s = s := by
  cases s
  simp [String.append]

lemma transcribeChunks_ok (svcOk : Payload → String) :
    ∀ (cs : List Chunk) (acc : String),
      (transcribeChunks (fun p => Except.ok (svcOk p)) acc cs).2
        = Except.ok (acc ++ joinAll (cs.map (fun c =>
            svcOk (Payload.chunk c.start c.len) ++ "\n"))) := by
  intro cs
  induction cs with
  | nil => intro acc; simp [transcribeChunks, joinAll, str_append_empty]
  | cons c rest ih =>
    intro acc
    simp only [transcribeChunks, List.map_cons, joinAll]
    rw [ih (acc ++ svcOk (Payload.chunk c.start c.len) ++ "\n")]
    simp [String.append_assoc]

/-- C4 (amended: the final accumulator is returned after Python's
`.strip()`, which removes leading as well as trailing whitespace, and we
additionally assume the computed chunk duration is positive — when it is
zero the splitter's error propagates instead): for an over-ceiling file,
`transcribe_audio` invokes the Chunk Splitter and returns the stripped
concatenation, in chunk order, of each chunk's transcription text each
followed by a newline. -/
theorem transcribe_over_ceiling_join (svcOk : Payload → String) (f : AudioFile)
    (hsize : f.size_bytes > 25 * 1024 * 1024)
    (hstep : 0 < chunk_size_ms 25 f.audio) :
    ∃ cs, split_audio f.path f.audio 25 = Except.ok cs ∧
      (transcribe_audio (fun p => Except.ok (svcOk p)) f).2
        = Except.ok (pyStrip (joinAll (cs.map (fun c =>
            svcOk (Payload.chunk c.start c.len) ++ "\n")))) := by
  have hok : ∃ cs, split_audio f.path f.audio 25 = Except.ok cs := by
    unfold split_audio
    rw [if_neg (by omega)]
    exact ⟨_, rfl⟩
  obtain ⟨cs, hcs⟩ := hok
  refine ⟨cs, hcs, ?_⟩
  unfold transcribe_audio
  rw [if_pos hsize, hcs]
  simp only [transcribeChunks_ok svcOk cs "", Except.map, str_empty_append]

/-- The per-chunk responses of the spec's end-to-end scenario: "first",
"second", "third" for the three chunks of a 60 MiB recording. -/
def svc3 : Payload → String
  | Payload.chunk 0 _ => "first"
  | Payload.chunk 148000 _ => "second"
  | Payload.chunk 296000 _ => "third"
  | _ => ""

/-- The spec's end-to-end file: 60 MiB encoded, 44.1 kHz, 4 bytes per
frame, 356.5 s — three chunks of 148 s, 148 s and 60.5 s. -/
def f3 : AudioFile :=
  { path := "m3.webm", size_bytes := 62914560,
    audio := { frame_rate := 44100, frame_width := 4, total_length_ms := 356500 } }

/-- C4 witness: the amended theorem applied to the spec's three-chunk
scenario, whose result is `"first\nsecond\nthird"`. -/
theorem transcribe_over_ceiling_join_witness :
    f3.size_bytes > 25 * 1024 * 1024 ∧
      0 < chunk_size_ms 25 f3.audio ∧
      (∃ cs, split_audio f3.path f3.audio 25 = Except.ok cs ∧
        (transcribe_audio (fun p => Except.ok (svc3 p)) f3).2
          = Except.ok (pyStrip (joinAll (cs.map (fun c =>
              svc3 (Payload.chunk c.start c.len) ++ "\n"))))) ∧
      (transcribe_audio (fun p => Except.ok (svc3 p)) f3).2
        = Except.ok "first\nsecond\nthird" :=
  ⟨by decide, by decide, transcribe_over_ceiling_join svc3 f3 (by decide) (by decide), by decide⟩

/-- The chunk files created during a trace (arguments of `create`). -/
def createdPaths (evs : List Event) : List String :=
  evs.filterMap (fun e => match e with | Event.create p => some p | _ => none)

/-- The files deleted during a trace (arguments of `remove`). -/
def removedPaths (evs : List Event) : List String :=
  evs.filterMap (fun e => match e with | Event.remove p => some p | _ => none)

lemma transcribeChunks_ok_paths (svcOk : Payload → String) :
    ∀ (cs : List Chunk) (acc : String),
      createdPaths (transcribeChunks (fun p => Except.ok (svcOk p)) acc cs).1 = [] ∧
        removedPaths (transcribeChunks (fun p => Except.ok (svcOk p)) acc cs).1
          = cs.map Chunk.path := by
  intro cs
  induction cs with
  | nil => intro acc; simp [transcribeChunks, createdPaths, removedPaths]
  | cons c rest ih =>
    intro acc
    obtain ⟨ihc, ihr⟩ := ih (acc ++ svcOk (Payload.chunk c.start c.len) ++ "\n")
    simp [transcribeChunks, createdPaths, removedPaths] at ihc ihr ⊢
    exact ⟨ihc, ihr⟩


lemma createdPaths_append (l1 l2 : List Event) :
    createdPaths (l1 ++ l2) = createdPaths l1 ++ createdPaths l2 := by
  simp [createdPaths]

lemma removedPaths_append (l1 l2 : List Event) :
    removedPaths (l1 ++ l2) = removedPaths l1 ++ removedPaths l2 := by
  simp [removedPaths]

lemma createdPaths_creates (cs : List Chunk) :
    createdPaths (cs.map (fun c => Event.create c.path)) = cs.map Chunk.path := by
  induction cs with
  | nil => rfl
  | cons c rest ih =>
    show c.path :: createdPaths (rest.map (fun c => Event.create c.path))
      = c.path :: rest.map Chunk.path
    rw [ih]

lemma removedPaths_creates (cs : List Chunk) :
    removedPaths (cs.map (fun c => Event.create c.path)) = [] := by
  induction cs with
  | nil => rfl
  | cons c rest ih =>
    show removedPaths (rest.map (fun c => Event.create c.path)) = []
    exact ih

lemma transcribeChunks_remove_mem (svc : Payload → Except Unit String) :
    ∀ (cs : List Chunk) (acc : String) (p : String),
      Event.remove p ∈ (transcribeChunks svc acc cs).1 → p ∈ cs.map Chunk.path := by
  intro cs
  induction cs with
  | nil => intro acc p h; simp [transcribeChunks] at h
  | cons c rest ih =>
    intro acc p h
    cases hsvc : svc (Payload.chunk c.start c.len) with
    | error e =>
      simp only [transcribeChunks, hsvc, List.mem_singleton] at h
      exact absurd h (by simp)
    | ok t =>
      simp only [transcribeChunks, hsvc, List.mem_cons] at h
      rcases h with h | h | h
      · exact absurd h (by simp)
      · simp only [Event.remove.injEq] at h
        simp [h]
      · have := ih (acc ++ t ++ "\n") p h
        simp [this]

lemma contains_false_of_not_mem {l : List Event} {e : Event} (h : e ∉ l) :
    l.contains e = false := by
  induction l with
  | nil => rfl
  | cons x xs ih =>
    simp only [List.contains_cons, Bool.or_eq_false_iff]
    constructor
    · simp only [beq_eq_false_iff_ne, ne_eq]
      intro heq
      exact h (heq ▸ List.mem_cons_self x xs)
    · exact ih (fun hm => h (List.mem_cons_of_mem x hm))

/-- C8: (i) when every per-chunk service call succeeds, every chunk file
created by the `split_audio` invocation inside `transcribe_audio` is
deleted by the time it returns (the created and removed paths coincide,
on every branch); and (ii) on no path — over- or under-ceiling, service
success or failure — does `transcribe_audio` delete the original source
file. -/
theorem transcribe_cleanup :
    (∀ (svcOk : Payload → String) (f : AudioFile),
      createdPaths (transcribe_audio (fun p => Except.ok (svcOk p)) f).1
        = removedPaths (transcribe_audio (fun p => Except.ok (svcOk p)) f).1) ∧
      (∀ (svc : Payload → Except Unit String) (f : AudioFile),
        ((transcribe_audio svc f).1.contains (Event.remove f.path)) = false) := by
  constructor
  · intro svcOk f
    unfold transcribe_audio
    by_cases hs : f.size_bytes > 25 * 1024 * 1024
    · rw [if_pos hs]
      cases hsp : split_audio f.path f.audio 25 with
      | error e => rfl
      | ok cs =>
        obtain ⟨hc, hr⟩ := transcribeChunks_ok_paths svcOk cs ""
        show createdPaths (cs.map (fun c => Event.create c.path)
              ++ (transcribeChunks (fun p => Except.ok (svcOk p)) "" cs).1)
            = removedPaths (cs.map (fun c => Event.create c.path)
              ++ (transcribeChunks (fun p => Except.ok (svcOk p)) "" cs).1)
        rw [createdPaths_append, removedPaths_append, createdPaths_creates,
          removedPaths_creates, hc, hr]
        simp
    · rw [if_neg hs]
      rfl
  · intro svc f
    apply contains_false_of_not_mem
    unfold transcribe_audio split_audio
    by_cases hs : f.size_bytes > 25 * 1024 * 1024
    · rw [if_pos hs]
      by_cases hz : chunk_size_ms 25 f.audio = 0
      · rw [if_pos hz]
        simp
      · rw [if_neg hz]
        intro hmem
        rcases List.mem_append.mp hmem with h1 | h2
        · rw [List.map_map] at h1
          obtain ⟨j, _, heq⟩ := List.mem_map.mp h1
          exact Event.noConfusion heq
        · have hmem3 := transcribeChunks_remove_mem svc _ "" f.path h2
          rw [List.map_map] at hmem3
          obtain ⟨j, _, hpath⟩ := List.mem_map.mp hmem3
          have hlen := congrArg String.length hpath
          have h6 : ("_chunk" : String).length = 6 := rfl
          have h4 : (".mp3" : String).length = 4 := rfl
          simp only [Function.comp_apply, String.length_append, h6, h4] at hlen
          omega
    · rw [if_neg hs]
      simp

/-- A row with its missing trailing columns (up to column F) filled in as
empty strings. -/
def pad6 (rv : List String) : List String :=
  rv ++ List.replicate (6 - rv.length) ""

lemma replicate_get_some : ∀ (n m : Nat), m < n → (List.replicate n "").get? m = some "" := by
  intro n
  induction n with
  | zero => intro m h; omega
  | succ p ih =>
    intro m h
    cases m with
    | zero => rfl
    | succ q => exact ih q (by omega)

lemma getD_pad6 (rv : List String) (j : Nat) (h : j < 6) :
    (pad6 rv).getD j "" = rv.getD j "" := by
  unfold pad6
  rcases Nat.lt_or_ge j rv.length with hlt | hge
  · rw [List.getD_eq_get?, List.getD_eq_get?, List.get?_append hlt]
  · rw [List.getD_eq_get?, List.getD_eq_get?, List.get?_append_right hge,
      replicate_get_some _ _ (by omega), List.get?_eq_none.mpr hge]
    rfl

lemma mkRecord_pad6 (i : Int) (rv : List String) : mkRecord i (pad6 rv) = mkRecord i rv := by
  unfold mkRecord
  rw [getD_pad6 rv 0 (by omega), getD_pad6 rv 1 (by omega), getD_pad6 rv 2 (by omega),
    getD_pad6 rv 3 (by omega), getD_pad6 rv 4 (by omega), getD_pad6 rv 5 (by omega)]

lemma isUnprocessed_pad6 (rv : List String) : isUnprocessed (pad6 rv) = isUnprocessed rv := by
  rcases Nat.lt_or_ge rv.length 6 with h6 | h6
  · have hlen : (pad6 rv).length = 6 := by
      unfold pad6
      rw [List.length_append, List.length_replicate]
      omega
    have hgd : (pad6 rv).getD 5 "" = rv.getD 5 "" := getD_pad6 rv 5 (by omega)
    have hrv5 : rv.getD 5 "" = "" := List.getD_eq_default _ _ (by omega)
    have hstrip : pyStrip "" = "" := rfl
    unfold isUnprocessed
    rw [hlen, hgd, hrv5, hstrip]
    simp [h6]
  · have hself : pad6 rv = rv := by
      unfold pad6
      have hz : 6 - rv.length = 0 := by omega
      rw [hz, List.replicate_zero, List.append_nil]
    rw [hself]

lemma pyIndex_map (values : List (List String)) (j : Int) :
    pyIndex (values.map pad6) j = (pyIndex values j).map pad6 := by
  unfold pyIndex
  rw [List.length_map]
  by_cases h0 : 0 ≤ j
  · rw [if_pos h0, if_pos h0, List.get?_map]
  · rw [if_neg h0, if_neg h0]
    by_cases h1 : 0 ≤ j + (values.length : Int)
    · rw [if_pos h1, if_pos h1, List.get?_map]
    · rw [if_neg h1, if_neg h1]
      rfl

lemma scanFrom_pad (values : List (List String)) :
    ∀ (n : Nat) (a : Int), scanFrom (values.map pad6) a n = scanFrom values a n := by
  intro n
  induction n with
  | zero => intro a; rfl
  | succ m ih =>
    intro a
    simp only [scanFrom, pyIndex_map]
    cases pyIndex values (a - 1) with
    | none => rfl
    | some rv =>
      show (if isUnprocessed (pad6 rv) then Except.ok (some (mkRecord a (pad6 rv)))
          else scanFrom (values.map pad6) (a + 1) m)
        = (if isUnprocessed rv then Except.ok (some (mkRecord a rv))
          else scanFrom values (a + 1) m)
      rw [isUnprocessed_pad6, mkRecord_pad6, ih]

/-- C7: the Record Locator treats a row with fewer than 6 columns exactly
like one whose column F is empty: both row shapes test as unprocessed, the
built payload is identical after filling missing trailing columns with
empty strings, and the whole scan is unchanged when every row is padded to
6 columns with empty strings. -/
theorem locator_short_row_padding :
    (∀ rv : List String, rv.length < 6 →
      isUnprocessed rv = true ∧ isUnprocessed (pad6 rv) = true ∧
        ∀ i : Int, mkRecord i rv = mkRecord i (pad6 rv)) ∧
      ∀ (k : Int) (values : List (List String)),
        get_next_unprocessed_record k (values.map pad6) = get_next_unprocessed_record k values := by
  constructor
  · intro rv h
    refine ⟨by simp [isUnprocessed, h], ?_, fun i => (mkRecord_pad6 i rv).symm⟩
    rw [isUnprocessed_pad6]
    simp [isUnprocessed, h]
  · intro k values
    unfold get_next_unprocessed_record
    rw [List.length_map]
    exact scanFrom_pad values _ _

/-- C7 witness: the theorem applied to the concrete short row `["a"]` and
to a concrete two-row table. -/
theorem locator_short_row_padding_witness :
    (["a"] : List String).length < 6 ∧
      isUnprocessed ["a"] = true ∧ isUnprocessed (pad6 ["a"]) = true ∧
      mkRecord 2 ["a"] = mkRecord 2 (pad6 ["a"]) ∧
      get_next_unprocessed_record 1 ([["x", "x", "x", "x", "x", "x"], ["a"]].map pad6)
        = get_next_unprocessed_record 1 [["x", "x", "x", "x", "x", "x"], ["a"]] :=
  ⟨by decide,
    (locator_short_row_padding.1 ["a"] (by decide)).1,
    (locator_short_row_padding.1 ["a"] (by decide)).2.1,
    (locator_short_row_padding.1 ["a"] (by decide)).2.2 2,
    locator_short_row_padding.2 1 [["x", "x", "x", "x", "x", "x"], ["a"]]⟩

/-- C8 witness: the cleanup theorem applied to the concrete two-chunk file
with an all-success service and with a fallible service. -/
theorem transcribe_cleanup_witness :
    createdPaths (transcribe_audio (fun p => Except.ok ((fun _ => "t") p)) fCE).1
        = removedPaths (transcribe_audio (fun p => Except.ok ((fun _ => "t") p)) fCE).1 ∧
      ((transcribe_audio svcCE fCE).1.contains (Event.remove fCE.path)) = false :=
  ⟨transcribe_cleanup.1 (fun _ => "t") fCE, transcribe_cleanup.2 svcCE fCE⟩
